import Mathlib

/-!
Shallow embedding of the dynamic workflow execution engine of the
`Assistant_support_LangGraph` repository, after
`Project/docker-deploy/app/graph.py` (routing functions, tracked step
wrapper, plan resolver, default flow and preset tables) together with the
plan-resolution part of the `/api/graph/run` endpoint in
`Project/docker-deploy/app/main.py`.

The Python graph state is a string-keyed dictionary.  The engine reads and
writes five control keys — `steps`, `current_step_index`, `execution_trace`,
`skip_remaining`, `error` — and treats every other key as opaque domain
payload.  We model the state as a record with one optional slot per control
key (`none` models an absent key) plus an association list for the payload;
dictionary values are modelled by the inductive `Val`.  A step handler is an
abstract function from states to `Except String PyDict`: `Except.error e`
models the handler raising an exception whose `str` is `e`, and
`Except.ok d` models the handler returning the partial-update dict `d`.

The LangGraph runtime itself is modelled by the fuel-indexed loop `runFrom`:
execute the tracked node, merge its returned delta into the state
(shallowly, last writer wins — the merge LangGraph performs for plain
channels), then ask `route_to_next_step` for the next node or `END`
(`Option.none`).  Since every tracked node advances `current_step_index` by
exactly one and routing continues only while the index is below the plan
length, a fuel of `plan length + 1` is enough for any run; `dynamic_graph_run`
uses exactly that.
-/

namespace AssistantSupport

/-- Values stored in the Python state dictionary: strings, naturals,
booleans, lists of strings (plans and traces), and Python `None`. -/
inductive Val where
  | s (v : String)
  | n (v : Nat)
  | b (v : Bool)
  | l (v : List String)
  | null
  deriving DecidableEq, Repr

/-- A Python dictionary, modelled as an association list. -/
abbrev PyDict := List (String × Val)

/-- Dictionary read, Python `d.get(k)`: the first binding of `k`, or `none`
when the key is absent. -/
def pyGet : PyDict → String → Option Val
  | [], _ => Option.none
  | (k1, v1) :: rest, k => if k1 = k then some v1 else pyGet rest k

/-- Whether the dictionary has a binding for `k`. -/
def pyHasKey : PyDict → String → Bool
  | [], _ => false
  | (k1, _) :: rest, k => k1 == k || pyHasKey rest k

/-- Replace the value of every binding of `k` (a real Python dict binds each
key once; replacing all occurrences keeps the model well behaved even on
association lists that repeat a key). -/
def pySetReplace : PyDict → String → Val → PyDict
  | [], _, _ => []
  | (k1, v1) :: rest, k, v =>
    if k1 = k then (k, v) :: pySetReplace rest k v
    else (k1, v1) :: pySetReplace rest k v

/-- Dictionary write, Python `d[k] = v`: overwrite in place when the key is
present, append a new binding otherwise. -/
def pySet (d : PyDict) (k : String) (v : Val) : PyDict :=
  if pyHasKey d k then pySetReplace d k v else d ++ [(k, v)]

/-- Python truthiness of an optional dictionary value, as used by
`state.get(k)` tests: an absent key yields `None`; `None`, `""`, `0`, `[]`
and `False` are falsy, everything else is truthy. -/
def truthy : Option Val → Bool
  | Option.none => false
  | some Val.null => false
  | some (Val.s v) => !(v == "")
  | some (Val.n v) => !(v == 0)
  | some (Val.b v) => v
  | some (Val.l v) => !v.isEmpty

/-- Default order of the complete flow, `DEFAULT_FLOW` in `graph.py`; note
the intentionally repeated `"email"` entry. -/
def DEFAULT_FLOW : List String :=
  ["reconstruct", "persist", "email", "analyze", "suggest", "save_analysis", "email"]

/-- Keys of the `NODE_FUNCTIONS` registry in `graph.py` (step name →
handler); the handlers themselves are opaque HTTP glue and enter the model
as abstract `Handler` parameters. -/
def NODE_FUNCTIONS_keys : List String :=
  ["reconstruct", "persist", "email", "analyze", "suggest", "save_analysis"]

/-- The `PRESET_WORKFLOWS` table of `graph.py`. -/
def PRESET_WORKFLOWS : List (String × List String) :=
  [("full", ["reconstruct", "persist", "email", "analyze", "suggest", "save_analysis"]),
   ("quick", ["reconstruct", "persist"]),
   ("analysis_only", ["analyze", "suggest", "save_analysis"]),
   ("reconstruct_only", ["reconstruct"]),
   ("persist_only", ["persist"]),
   ("email_only", ["email"]),
   ("no_email", ["reconstruct", "persist", "analyze", "suggest", "save_analysis"]),
   ("analysis_and_suggest", ["analyze", "suggest"]),
   ("with_email", ["reconstruct", "persist", "email"])]

/-- The graph state: the five engine control keys, each optional (`none`
models the key being absent from the dictionary), plus the opaque domain
payload. -/
structure GraphState where
  steps : Option Val
  current_step_index : Option Val
  execution_trace : Option Val
  skip_remaining : Option Val
  error : Option Val
  payload : PyDict
  deriving DecidableEq, Repr

/-- Python `state.get("steps", DEFAULT_FLOW)`.  A present non-list value
would crash the Python program at its first use; our claims quantify only
over well-typed states, where that arm is unreachable. -/
def getSteps (st : GraphState) : List String :=
  match st.steps with
  | some (Val.l v) => v
  | some _ => []
  | Option.none => DEFAULT_FLOW

/-- Python `state.get("current_step_index", 0)`. -/
def getIndex (st : GraphState) : Nat :=
  match st.current_step_index with
  | some (Val.n v) => v
  | some _ => 0
  | Option.none => 0

/-- Python `state.get("execution_trace", [])`. -/
def getTrace (st : GraphState) : List String :=
  match st.execution_trace with
  | some (Val.l v) => v
  | some _ => []
  | Option.none => []

/-- Entry-point selection, `get_entry_point` in `graph.py`: with the plan
non-empty, return `steps[current_index]` when the index is in range and
`steps[0]` otherwise; with the plan empty, log a warning and return
`DEFAULT_FLOW[0]`. -/
def get_entry_point (st : GraphState) : String :=
  let steps := getSteps st
  if steps.isEmpty then DEFAULT_FLOW.headD ""
  else
    let current_index := getIndex st
    if current_index < steps.length then steps.getD current_index ""
    else steps.headD ""

/-- Post-step routing, `route_to_next_step` in `graph.py`; `Option.none`
models `END`.  The checks run in source order: `skip_remaining`, then
`error`, then plan exhaustion, else the step at the (already advanced)
index. -/
def route_to_next_step (st : GraphState) : Option String :=
  if truthy st.skip_remaining then Option.none
  else if truthy st.error then Option.none
  else
    let steps := getSteps st
    let current_index := getIndex st
    if steps.length ≤ current_index then Option.none
    else some (steps.getD current_index "")

/-- A step handler: `Except.error e` models the handler raising an
exception with message `e`; `Except.ok d` models it returning the
partial-update dictionary `d`. -/
abbrev Handler := GraphState → Except String PyDict

/-- The tracked step wrapper `create_tracked_node(node_name, node_func)` of
`graph.py`, applied to a state: on success, take the handler's result dict,
overwrite its `execution_trace` with the state's trace (copied) plus the
step name, overwrite its `current_step_index` with the state's index plus
one, and return it; on failure, return the four-field error delta and never
re-raise. -/
def create_tracked_node (node_name : String) (node_func : Handler)
    (st : GraphState) : PyDict :=
  let trace := getTrace st
  match node_func st with
  | Except.ok result =>
      let trace_copy := trace ++ [node_name]
      let r1 := pySet result "execution_trace" (Val.l trace_copy)
      pySet r1 "current_step_index" (Val.n (getIndex st + 1))
  | Except.error e =>
      [("error", Val.s ("Errore in " ++ node_name ++ ": " ++ e)),
       ("execution_trace", Val.l (trace ++ [node_name ++ "[ERROR]"])),
       ("skip_remaining", Val.b true),
       ("current_step_index", Val.n (getIndex st + 1))]

/-- Merge one delta binding into the state: a control key updates its slot,
anything else lands in the payload dictionary (shallow, last writer wins —
what the LangGraph runtime does for plain channels). -/
def applyEntry (st : GraphState) (k : String) (v : Val) : GraphState :=
  if k = "steps" then { st with steps := some v }
  else if k = "current_step_index" then { st with current_step_index := some v }
  else if k = "execution_trace" then { st with execution_trace := some v }
  else if k = "skip_remaining" then { st with skip_remaining := some v }
  else if k = "error" then { st with error := some v }
  else { st with payload := pySet st.payload k v }

/-- Merge a whole node delta into the state, binding by binding. -/
def applyDelta (st : GraphState) (d : PyDict) : GraphState :=
  d.foldl (fun s kv => applyEntry s kv.fst kv.snd) st

/-- One engine loop: run the tracked node, merge its delta, and follow the
router to the next node or stop.  `fuel` bounds the number of node
executions; since every tracked node advances the index by one and routing
continues only below the plan length, `plan length + 1` fuel is always
enough. -/
def runFrom (handlers : String → Handler) : Nat → String → GraphState → GraphState
  | 0, _, st => st
  | Nat.succ fuel, node, st =>
    let st1 := applyDelta st (create_tracked_node node (handlers node) st)
    match route_to_next_step st1 with
    | Option.none => st1
    | some next => runFrom handlers fuel next st1

/-- A full run of the compiled dynamic graph on an initial state: enter at
`get_entry_point` and loop until the router returns `END`. -/
def dynamic_graph_run (handlers : String → Handler) (st : GraphState) : GraphState :=
  runFrom handlers ((getSteps st).length + 1) (get_entry_point st) st

/-- A workflow request as received by `prepare_workflow_steps`: Python
`None` (or any falsy non-string non-list), a string, or a list of
strings. -/
inductive WorkflowRequest where
  | null
  | str (s : String)
  | strList (l : List String)
  deriving DecidableEq, Repr

/-- Plan resolution, `prepare_workflow_steps` in `graph.py`: falsy requests
(`None`, `""`, `[]`) give `DEFAULT_FLOW`; a string is looked up among the
presets and otherwise becomes a single-step plan; a list is filtered to the
registered step names, in order, dropping (with a logged warning) every
unregistered name. -/
def prepare_workflow_steps : WorkflowRequest → List String
  | WorkflowRequest.null => DEFAULT_FLOW
  | WorkflowRequest.str s =>
      if s = "" then DEFAULT_FLOW
      else
        match List.lookup s PRESET_WORKFLOWS with
        | some plan => plan
        | Option.none => [s]
  | WorkflowRequest.strList l =>
      if l.isEmpty then DEFAULT_FLOW
      else l.filter (fun step => NODE_FUNCTIONS_keys.contains step)

/-- Plan resolution as performed by the `/api/graph/run` endpoint in
`main.py`: `workflow_spec = request.get("workflow", "full")` followed by
`prepare_workflow_steps(workflow_spec)`.  The outer `Option` distinguishes
an absent `workflow` field (`Option.none`, which Python defaults to the
string `"full"`) from a present one (possibly JSON null,
`WorkflowRequest.null`). -/
def run_dynamic_workflow_steps (workflow : Option WorkflowRequest) : List String :=
  prepare_workflow_steps (workflow.getD (WorkflowRequest.str "full"))

/-- Initial state built by the `/api/graph/run` endpoint: the resolved
steps, index `0`, empty trace, `skip_remaining = False`, `error = None`,
plus the domain payload. -/
def mkInitState (P : List String) (payload : PyDict) : GraphState :=
  { steps := some (Val.l P)
    current_step_index := some (Val.n 0)
    execution_trace := some (Val.l [])
    skip_remaining := some (Val.b false)
    error := some Val.null
    payload := payload }

/-- Whether a string matches a preset name. -/
def presetMatch (s : String) : Bool :=
  (List.lookup s PRESET_WORKFLOWS).isSome

/-- A handler result dict is clean when it binds none of the three control
keys the engine reads for routing and plan selection (`steps`,
`skip_remaining`, `error`): this is what "the handler did not fail, did not
ask to stop, and did not touch the engine-owned fields" means for a
successful invocation.  (`execution_trace` and `current_step_index`
bindings are harmless: the wrapper overwrites them.) -/
def cleanKeys (d : PyDict) : Prop :=
  ∀ kv ∈ d, kv.fst ≠ "steps" ∧ kv.fst ≠ "skip_remaining" ∧ kv.fst ≠ "error"

/-- All handlers succeed on all states, with clean result dicts. -/
def cleanOk (handlers : String → Handler) : Prop :=
  ∀ name st, ∃ d, handlers name st = Except.ok d ∧ cleanKeys d

/-! ## Dictionary lemmas -/

theorem pyGet_pySetReplace_same (d : PyDict) (k : String) (v : Val)
    (h : pyHasKey d k = true) : pyGet (pySetReplace d k v) k = some v := by
  induction d with
  | nil => simp [pyHasKey] at h
  | cons kv rest ih =>
    obtain ⟨k1, v1⟩ := kv
    by_cases hk : k1 = k
    · simp [pySetReplace, hk, pyGet]
    · simp only [pyHasKey, Bool.or_eq_true, beq_iff_eq] at h
      rcases h with h | h
      · exact absurd h hk
      · simp [pySetReplace, hk, pyGet, ih h]

theorem pyGet_pySetReplace_other (d : PyDict) (k k' : String) (v : Val)
    (h : k' ≠ k) : pyGet (pySetReplace d k v) k' = pyGet d k' := by
  induction d with
  | nil => rfl
  | cons kv rest ih =>
    obtain ⟨k1, v1⟩ := kv
    by_cases hk : k1 = k
    · simp only [pySetReplace, if_pos hk, pyGet]
      rw [if_neg (fun hc => h hc.symm), ih,
        if_neg (show ¬ k1 = k' from fun hc => h (hk ▸ hc).symm)]
    · simp only [pySetReplace, if_neg hk, pyGet]
      by_cases hk' : k1 = k'
      · rw [if_pos hk', if_pos hk']
      · rw [if_neg hk', if_neg hk', ih]

theorem pyGet_append_single (d : PyDict) (k : String) (v : Val)
    (h : pyHasKey d k = false) : pyGet (d ++ [(k, v)]) k = some v := by
  induction d with
  | nil => simp [pyGet]
  | cons kv rest ih =>
    obtain ⟨k1, v1⟩ := kv
    simp only [pyHasKey, Bool.or_eq_false_iff, beq_eq_false_iff_ne] at h
    simp [pyGet, h.1, ih h.2]

theorem pyGet_append_single_other (d : PyDict) (k k' : String) (v : Val)
    (h : k' ≠ k) : pyGet (d ++ [(k, v)]) k' = pyGet d k' := by
  induction d with
  | nil =>
    simp only [List.nil_append, pyGet]
    rw [if_neg (fun hc => h hc.symm)]
  | cons kv rest ih =>
    obtain ⟨k1, v1⟩ := kv
    by_cases hk : k1 = k'
    · simp [pyGet, hk]
    · simp [pyGet, hk, ih]

theorem pyGet_pySet_same (d : PyDict) (k : String) (v : Val) :
    pyGet (pySet d k v) k = some v := by
  unfold pySet
  by_cases h : pyHasKey d k = true
  · rw [if_pos h]
    exact pyGet_pySetReplace_same d k v h
  · rw [if_neg h]
    exact pyGet_append_single d k v (by simpa using h)

theorem pyGet_pySet_other (d : PyDict) (k k' : String) (v : Val) (h : k' ≠ k) :
    pyGet (pySet d k v) k' = pyGet d k' := by
  unfold pySet
  by_cases hh : pyHasKey d k = true
  · rw [if_pos hh]
    exact pyGet_pySetReplace_other d k k' v h
  · rw [if_neg hh]
    exact pyGet_append_single_other d k k' v h

theorem pyHasKey_false_forall (d : PyDict) (k : String)
    (h : pyHasKey d k = false) : ∀ kv ∈ d, kv.fst ≠ k := by
  induction d with
  | nil => intro kv hkv; cases hkv
  | cons kv0 rest ih =>
    obtain ⟨k1, v1⟩ := kv0
    simp only [pyHasKey, Bool.or_eq_false_iff, beq_eq_false_iff_ne] at h
    intro kv hkv
    rcases List.mem_cons.mp hkv with h1 | h1
    · subst h1; exact h.1
    · exact ih h.2 kv h1

theorem pySetReplace_mem (d : PyDict) (k : String) (v : Val) :
    ∀ kv ∈ pySetReplace d k v, (kv ∈ d ∧ kv.fst ≠ k) ∨ kv = (k, v) := by
  induction d with
  | nil => intro kv hkv; cases hkv
  | cons kv0 rest ih =>
    obtain ⟨k1, v1⟩ := kv0
    intro kv hkv
    by_cases hk : k1 = k
    · simp only [pySetReplace, if_pos hk] at hkv
      rcases List.mem_cons.mp hkv with h1 | h1
      · exact Or.inr h1
      · rcases ih kv h1 with ⟨h2, h3⟩ | h2
        · exact Or.inl ⟨List.mem_cons_of_mem _ h2, h3⟩
        · exact Or.inr h2
    · simp only [pySetReplace, if_neg hk] at hkv
      rcases List.mem_cons.mp hkv with h1 | h1
      · subst h1; exact Or.inl ⟨List.mem_cons_self _ _, hk⟩
      · rcases ih kv h1 with ⟨h2, h3⟩ | h2
        · exact Or.inl ⟨List.mem_cons_of_mem _ h2, h3⟩
        · exact Or.inr h2

theorem pySet_mem (d : PyDict) (k : String) (v : Val) :
    ∀ kv ∈ pySet d k v, (kv ∈ d ∧ kv.fst ≠ k) ∨ kv = (k, v) := by
  unfold pySet
  by_cases hh : pyHasKey d k = true
  · rw [if_pos hh]
    exact pySetReplace_mem d k v
  · rw [if_neg hh]
    intro kv hkv
    rcases List.mem_append.mp hkv with h1 | h1
    · exact Or.inl ⟨h1, pyHasKey_false_forall d k (by simpa using hh) kv h1⟩
    · exact Or.inr (List.mem_singleton.mp h1)

theorem pySetReplace_self_mem (d : PyDict) (k : String) (v : Val)
    (h : pyHasKey d k = true) : (k, v) ∈ pySetReplace d k v := by
  induction d with
  | nil => simp [pyHasKey] at h
  | cons kv0 rest ih =>
    obtain ⟨k1, v1⟩ := kv0
    by_cases hk : k1 = k
    · simp [pySetReplace, hk]
    · simp only [pyHasKey, Bool.or_eq_true, beq_iff_eq] at h
      rcases h with h | h
      · exact absurd h hk
      · simp only [pySetReplace, if_neg hk]
        exact List.mem_cons_of_mem _ (ih h)

theorem pySet_self_mem (d : PyDict) (k : String) (v : Val) :
    (k, v) ∈ pySet d k v := by
  unfold pySet
  by_cases hh : pyHasKey d k = true
  · rw [if_pos hh]
    exact pySetReplace_self_mem d k v hh
  · rw [if_neg hh]
    exact List.mem_append_right _ (List.mem_singleton.mpr rfl)

theorem pySet_mem_of (d : PyDict) (k : String) (v : Val) (kv : String × Val)
    (h : kv.fst ≠ k) (hm : kv ∈ d) : kv ∈ pySet d k v := by
  unfold pySet
  by_cases hh : pyHasKey d k = true
  · rw [if_pos hh]
    clear hh
    induction d with
    | nil => cases hm
    | cons kv0 rest ih =>
      obtain ⟨k1, v1⟩ := kv0
      rcases List.mem_cons.mp hm with h1 | h1
      · subst h1
        simp only [pySetReplace, if_neg h]
        exact List.mem_cons_self _ _
      · by_cases hk : k1 = k
        · simp only [pySetReplace, if_pos hk]
          exact List.mem_cons_of_mem _ (ih h1)
        · simp only [pySetReplace, if_neg hk]
          exact List.mem_cons_of_mem _ (ih h1)
  · rw [if_neg hh]
    exact List.mem_append_left _ hm

/-! ## Getter and tracked-wrapper equations -/

theorem getSteps_eq (st : GraphState) (P : List String)
    (h : st.steps = some (Val.l P)) : getSteps st = P := by
  unfold getSteps; rw [h]

theorem getIndex_eq (st : GraphState) (i : Nat)
    (h : st.current_step_index = some (Val.n i)) : getIndex st = i := by
  unfold getIndex; rw [h]

theorem getTrace_eq (st : GraphState) (t : List String)
    (h : st.execution_trace = some (Val.l t)) : getTrace st = t := by
  unfold getTrace; rw [h]

theorem tracked_node_ok_eq (node_name : String) (f : Handler) (st : GraphState)
    (d : PyDict) (hf : f st = Except.ok d) :
    create_tracked_node node_name f st =
      pySet (pySet d "execution_trace" (Val.l (getTrace st ++ [node_name])))
        "current_step_index" (Val.n (getIndex st + 1)) := by
  simp only [create_tracked_node, hf]

theorem tracked_node_error_eq (node_name : String) (f : Handler) (st : GraphState)
    (e : String) (hf : f st = Except.error e) :
    create_tracked_node node_name f st =
      [("error", Val.s ("Errore in " ++ node_name ++ ": " ++ e)),
       ("execution_trace", Val.l (getTrace st ++ [node_name ++ "[ERROR]"])),
       ("skip_remaining", Val.b true),
       ("current_step_index", Val.n (getIndex st + 1))] := by
  simp only [create_tracked_node, hf]

/-! ## Delta-merge lemmas -/

theorem applyEntry_steps_of_ne (st : GraphState) (k : String) (v : Val)
    (h : k ≠ "steps") : (applyEntry st k v).steps = st.steps := by
  unfold applyEntry
  split_ifs <;> simp_all

theorem applyEntry_skip_of_ne (st : GraphState) (k : String) (v : Val)
    (h : k ≠ "skip_remaining") :
    (applyEntry st k v).skip_remaining = st.skip_remaining := by
  unfold applyEntry
  split_ifs <;> simp_all

theorem applyEntry_error_of_ne (st : GraphState) (k : String) (v : Val)
    (h : k ≠ "error") : (applyEntry st k v).error = st.error := by
  unfold applyEntry
  split_ifs <;> simp_all

theorem applyEntry_trace_of_ne (st : GraphState) (k : String) (v : Val)
    (h : k ≠ "execution_trace") :
    (applyEntry st k v).execution_trace = st.execution_trace := by
  unfold applyEntry
  split_ifs <;> simp_all

theorem applyEntry_index_of_ne (st : GraphState) (k : String) (v : Val)
    (h : k ≠ "current_step_index") :
    (applyEntry st k v).current_step_index = st.current_step_index := by
  unfold applyEntry
  split_ifs <;> simp_all

theorem applyEntry_trace_set (st : GraphState) (v : Val) :
    (applyEntry st "execution_trace" v).execution_trace = some v := by
  simp [applyEntry]

theorem applyEntry_index_set (st : GraphState) (v : Val) :
    (applyEntry st "current_step_index" v).current_step_index = some v := by
  simp [applyEntry]

theorem applyDelta_cons (st : GraphState) (kv : String × Val) (d : PyDict) :
    applyDelta st (kv :: d) = applyDelta (applyEntry st kv.fst kv.snd) d := rfl

theorem applyDelta_steps_of (d : PyDict) (h : ∀ kv ∈ d, kv.fst ≠ "steps") :
    ∀ st : GraphState, (applyDelta st d).steps = st.steps := by
  induction d with
  | nil => intro st; rfl
  | cons kv rest ih =>
    intro st
    rw [applyDelta_cons,
      ih (fun x hx => h x (List.mem_cons_of_mem _ hx)),
      applyEntry_steps_of_ne st kv.fst kv.snd (h kv (List.mem_cons_self _ _))]

theorem applyDelta_skip_of (d : PyDict)
    (h : ∀ kv ∈ d, kv.fst ≠ "skip_remaining") :
    ∀ st : GraphState, (applyDelta st d).skip_remaining = st.skip_remaining := by
  induction d with
  | nil => intro st; rfl
  | cons kv rest ih =>
    intro st
    rw [applyDelta_cons,
      ih (fun x hx => h x (List.mem_cons_of_mem _ hx)),
      applyEntry_skip_of_ne st kv.fst kv.snd (h kv (List.mem_cons_self _ _))]

theorem applyDelta_error_of (d : PyDict) (h : ∀ kv ∈ d, kv.fst ≠ "error") :
    ∀ st : GraphState, (applyDelta st d).error = st.error := by
  induction d with
  | nil => intro st; rfl
  | cons kv rest ih =>
    intro st
    rw [applyDelta_cons,
      ih (fun x hx => h x (List.mem_cons_of_mem _ hx)),
      applyEntry_error_of_ne st kv.fst kv.snd (h kv (List.mem_cons_self _ _))]

theorem applyDelta_trace_pres (d : PyDict) (w : Val)
    (hall : ∀ kv ∈ d, kv.fst = "execution_trace" → kv.snd = w) :
    ∀ st : GraphState, st.execution_trace = some w →
      (applyDelta st d).execution_trace = some w := by
  induction d with
  | nil => intro st hst; exact hst
  | cons kv rest ih =>
    intro st hst
    rw [applyDelta_cons]
    refine ih (fun x hx => hall x (List.mem_cons_of_mem _ hx)) _ ?_
    by_cases hk : kv.fst = "execution_trace"
    · have hv := hall kv (List.mem_cons_self _ _) hk
      rw [hk, applyEntry_trace_set, hv]
    · rw [applyEntry_trace_of_ne st kv.fst kv.snd hk, hst]

theorem applyDelta_trace_mem (d : PyDict) (w : Val)
    (hall : ∀ kv ∈ d, kv.fst = "execution_trace" → kv.snd = w)
    (hex : ∃ kv ∈ d, kv.fst = "execution_trace") :
    ∀ st : GraphState, (applyDelta st d).execution_trace = some w := by
  induction d with
  | nil => obtain ⟨kv, hkv, _⟩ := hex; cases hkv
  | cons kv0 rest ih =>
    intro st
    rw [applyDelta_cons]
    by_cases hk : kv0.fst = "execution_trace"
    · have hv := hall kv0 (List.mem_cons_self _ _) hk
      refine applyDelta_trace_pres rest w
        (fun x hx => hall x (List.mem_cons_of_mem _ hx)) _ ?_
      rw [hk, applyEntry_trace_set, hv]
    · obtain ⟨kv, hkv, hkv2⟩ := hex
      rcases List.mem_cons.mp hkv with h1 | h1
      · exact absurd (h1 ▸ hkv2) hk
      · exact ih (fun x hx => hall x (List.mem_cons_of_mem _ hx)) ⟨kv, h1, hkv2⟩ _

theorem applyDelta_index_pres (d : PyDict) (w : Val)
    (hall : ∀ kv ∈ d, kv.fst = "current_step_index" → kv.snd = w) :
    ∀ st : GraphState, st.current_step_index = some w →
      (applyDelta st d).current_step_index = some w := by
  induction d with
  | nil => intro st hst; exact hst
  | cons kv rest ih =>
    intro st hst
    rw [applyDelta_cons]
    refine ih (fun x hx => hall x (List.mem_cons_of_mem _ hx)) _ ?_
    by_cases hk : kv.fst = "current_step_index"
    · have hv := hall kv (List.mem_cons_self _ _) hk
      rw [hk, applyEntry_index_set, hv]
    · rw [applyEntry_index_of_ne st kv.fst kv.snd hk, hst]

theorem applyDelta_index_mem (d : PyDict) (w : Val)
    (hall : ∀ kv ∈ d, kv.fst = "current_step_index" → kv.snd = w)
    (hex : ∃ kv ∈ d, kv.fst = "current_step_index") :
    ∀ st : GraphState, (applyDelta st d).current_step_index = some w := by
  induction d with
  | nil => obtain ⟨kv, hkv, _⟩ := hex; cases hkv
  | cons kv0 rest ih =>
    intro st
    rw [applyDelta_cons]
    by_cases hk : kv0.fst = "current_step_index"
    · have hv := hall kv0 (List.mem_cons_self _ _) hk
      refine applyDelta_index_pres rest w
        (fun x hx => hall x (List.mem_cons_of_mem _ hx)) _ ?_
      rw [hk, applyEntry_index_set, hv]
    · obtain ⟨kv, hkv, hkv2⟩ := hex
      rcases List.mem_cons.mp hkv with h1 | h1
      · exact absurd (h1 ▸ hkv2) hk
      · exact ih (fun x hx => hall x (List.mem_cons_of_mem _ hx)) ⟨kv, h1, hkv2⟩ _

/-- Merging the tracked wrapper's successful delta (clean handler result
with `execution_trace` and `current_step_index` overwritten) leaves
`steps`, `skip_remaining` and `error` unchanged, and installs the new trace
and index. -/
theorem applyDelta_tracked_ok (st : GraphState) (d : PyDict)
    (tv : List String) (i : Nat) (hclean : cleanKeys d) :
    (applyDelta st (pySet (pySet d "execution_trace" (Val.l tv))
        "current_step_index" (Val.n i))).steps = st.steps ∧
    (applyDelta st (pySet (pySet d "execution_trace" (Val.l tv))
        "current_step_index" (Val.n i))).skip_remaining = st.skip_remaining ∧
    (applyDelta st (pySet (pySet d "execution_trace" (Val.l tv))
        "current_step_index" (Val.n i))).error = st.error ∧
    (applyDelta st (pySet (pySet d "execution_trace" (Val.l tv))
        "current_step_index" (Val.n i))).execution_trace = some (Val.l tv) ∧
    (applyDelta st (pySet (pySet d "execution_trace" (Val.l tv))
        "current_step_index" (Val.n i))).current_step_index = some (Val.n i) := by
  set inner := pySet d "execution_trace" (Val.l tv) with hinner
  set delta := pySet inner "current_step_index" (Val.n i) with hdelta
  have hmem : ∀ kv ∈ delta,
      (kv ∈ d ∧ kv.fst ≠ "execution_trace" ∧ kv.fst ≠ "current_step_index")
      ∨ kv = ("execution_trace", Val.l tv)
      ∨ kv = ("current_step_index", Val.n i) := by
    intro kv hkv
    rcases pySet_mem inner "current_step_index" (Val.n i) kv hkv with ⟨h1, h2⟩ | h1
    · rcases pySet_mem d "execution_trace" (Val.l tv) kv h1 with ⟨h3, h4⟩ | h3
      · exact Or.inl ⟨h3, h4, h2⟩
      · exact Or.inr (Or.inl h3)
    · exact Or.inr (Or.inr h1)
  have hclean2 : ∀ kv ∈ delta,
      kv.fst ≠ "steps" ∧ kv.fst ≠ "skip_remaining" ∧ kv.fst ≠ "error" := by
    intro kv hkv
    rcases hmem kv hkv with ⟨h1, _, _⟩ | h1 | h1
    · exact hclean kv h1
    · have hf : kv.fst = "execution_trace" := by rw [h1]
      rw [hf]
      decide
    · have hf : kv.fst = "current_step_index" := by rw [h1]
      rw [hf]
      decide
  have htr_all : ∀ kv ∈ delta, kv.fst = "execution_trace" → kv.snd = Val.l tv := by
    intro kv hkv hk
    rcases hmem kv hkv with ⟨_, h2, _⟩ | h1 | h1
    · exact absurd hk h2
    · rw [h1]
    · have hf : kv.fst = "current_step_index" := by rw [h1]
      rw [hf] at hk
      exact absurd hk (by decide)
  have htr_ex : ∃ kv ∈ delta, kv.fst = "execution_trace" := by
    refine ⟨("execution_trace", Val.l tv), ?_, rfl⟩
    exact pySet_mem_of inner "current_step_index" (Val.n i) _
      (show ("execution_trace" : String) ≠ "current_step_index" from by decide)
      (pySet_self_mem d "execution_trace" (Val.l tv))
  have hix_all : ∀ kv ∈ delta, kv.fst = "current_step_index" → kv.snd = Val.n i := by
    intro kv hkv hk
    rcases hmem kv hkv with ⟨_, _, h2⟩ | h1 | h1
    · exact absurd hk h2
    · have hf : kv.fst = "execution_trace" := by rw [h1]
      rw [hf] at hk
      exact absurd hk (by decide)
    · rw [h1]
  have hix_ex : ∃ kv ∈ delta, kv.fst = "current_step_index" :=
    ⟨("current_step_index", Val.n i), pySet_self_mem inner _ _, rfl⟩
  refine ⟨?_, ?_, ?_, ?_, ?_⟩
  · exact applyDelta_steps_of delta (fun kv h => (hclean2 kv h).1) st
  · exact applyDelta_skip_of delta (fun kv h => (hclean2 kv h).2.1) st
  · exact applyDelta_error_of delta (fun kv h => (hclean2 kv h).2.2) st
  · exact applyDelta_trace_mem delta (Val.l tv) htr_all htr_ex st
  · exact applyDelta_index_mem delta (Val.n i) hix_all hix_ex st

/-- Merging the tracked wrapper's failure delta sets `error`, the trace,
`skip_remaining` and the advanced index, and touches nothing else. -/
theorem applyDelta_tracked_error (st : GraphState) (m : String)
    (tv : List String) (i : Nat) :
    applyDelta st
      [("error", Val.s m), ("execution_trace", Val.l tv),
       ("skip_remaining", Val.b true), ("current_step_index", Val.n i)]
    = { st with
        error := some (Val.s m)
        execution_trace := some (Val.l tv)
        skip_remaining := some (Val.b true)
        current_step_index := some (Val.n i) } := by
  rfl

/-! ## Routing lemmas -/

theorem route_end_of_skip (st : GraphState)
    (h : truthy st.skip_remaining = true) :
    route_to_next_step st = Option.none := by
  simp [route_to_next_step, h]

theorem route_end_of_error (st : GraphState)
    (h1 : truthy st.skip_remaining = false) (h2 : truthy st.error = true) :
    route_to_next_step st = Option.none := by
  simp [route_to_next_step, h1, h2]

theorem route_end_of_exhausted (st : GraphState)
    (h1 : truthy st.skip_remaining = false) (h2 : truthy st.error = false)
    (h3 : (getSteps st).length ≤ getIndex st) :
    route_to_next_step st = Option.none := by
  simp [route_to_next_step, h1, h2, h3]

theorem route_cont (st : GraphState)
    (h1 : truthy st.skip_remaining = false) (h2 : truthy st.error = false)
    (h3 : getIndex st < (getSteps st).length) :
    route_to_next_step st = some ((getSteps st).getD (getIndex st) "") := by
  have h4 : ¬ (getSteps st).length ≤ getIndex st := by omega
  simp [route_to_next_step, h1, h2, h4]

/-! ## Claim C3 — entry-point selection -/

/-- C3, counterexample to the claim as stated: on a state with plan
`["reconstruct", "persist"]` and `current_step_index = 2`, the code returns
`plan[0] = "reconstruct"`, not `plan[min(2, len-1)] = "persist"` as the
claim asserts. -/
theorem C3_entry_point_min_counterexample :
    get_entry_point
      { steps := some (Val.l ["reconstruct", "persist"])
        current_step_index := some (Val.n 2)
        execution_trace := some (Val.l [])
        skip_remaining := some (Val.b false)
        error := some Val.null
        payload := [] } = "reconstruct" ∧
    ["reconstruct", "persist"].getD (min 2 (["reconstruct", "persist"].length - 1)) ""
      = "persist" ∧
    ("reconstruct" : String) ≠ "persist" := by
  decide

/-- C3 (amended): for a state with a non-empty plan, entry-point selection
returns `plan[current_step_index]` when the index is below the plan length
and `plan[0]` (not `plan[min(current_step_index, len(plan)-1)]`) when it is
not; for a state whose plan is empty it returns the configured default
plan's first element (and logs a warning). -/
theorem C3_entry_point_selection (st : GraphState) (P : List String) (i : Nat)
    (hP : getSteps st = P) (hi : getIndex st = i) :
    (P ≠ [] → i < P.length → get_entry_point st = P.getD i "") ∧
    (P ≠ [] → P.length ≤ i → get_entry_point st = P.headD "") ∧
    (P = [] → get_entry_point st = DEFAULT_FLOW.headD "") := by
  refine ⟨fun hne hlt => ?_, fun hne hge => ?_, fun he => ?_⟩
  · simp [get_entry_point, hP, hi, List.isEmpty_iff, hne, hlt]
  · have hnl : ¬ i < P.length := by omega
    simp [get_entry_point, hP, hi, List.isEmpty_iff, hne, hnl]
  · simp [get_entry_point, hP, he]

/-- Witness for C3: a concrete state with plan `["persist"]` and index `0`
enters at `"persist"`. -/
theorem C3_entry_point_selection_witness :
    get_entry_point (mkInitState ["persist"] []) = ["persist"].getD 0 "" := by
  have h := (C3_entry_point_selection (mkInitState ["persist"] []) ["persist"] 0
    rfl rfl).1
  exact h (by decide) (by decide)

/-! ## Claim C4 — post-step routing precedence -/

/-- C4: post-step routing checks, in this exact precedence: a truthy
`skip_remaining` terminates; else a truthy `error` terminates — regardless
of how many plan entries remain; else an index at or past the plan length
terminates; else the router returns `plan[current_step_index]`. -/
theorem C4_routing_precedence (st : GraphState) :
    (truthy st.skip_remaining = true → route_to_next_step st = Option.none) ∧
    (truthy st.skip_remaining = false → truthy st.error = true →
      route_to_next_step st = Option.none) ∧
    (truthy st.skip_remaining = false → truthy st.error = false →
      (getSteps st).length ≤ getIndex st → route_to_next_step st = Option.none) ∧
    (truthy st.skip_remaining = false → truthy st.error = false →
      getIndex st < (getSteps st).length →
      route_to_next_step st = some ((getSteps st).getD (getIndex st) "")) :=
  ⟨fun h => route_end_of_skip st h,
   fun h1 h2 => route_end_of_error st h1 h2,
   fun h1 h2 h3 => route_end_of_exhausted st h1 h2 h3,
   fun h1 h2 h3 => route_cont st h1 h2 h3⟩

/-- Witness for C4: with an error set and a plan entry remaining
(`current_step_index = 1 < 2`), routing terminates; on the same state with
the error cleared, routing continues to `"persist"`. -/
theorem C4_routing_precedence_witness :
    route_to_next_step
      { steps := some (Val.l ["reconstruct", "persist"])
        current_step_index := some (Val.n 1)
        execution_trace := some (Val.l ["reconstruct"])
        skip_remaining := some (Val.b false)
        error := some (Val.s "boom")
        payload := [] } = Option.none ∧
    route_to_next_step
      { steps := some (Val.l ["reconstruct", "persist"])
        current_step_index := some (Val.n 1)
        execution_trace := some (Val.l ["reconstruct"])
        skip_remaining := some (Val.b false)
        error := some Val.null
        payload := [] } = some "persist" := by
  constructor
  · exact (C4_routing_precedence _).2.1 (by decide) (by decide)
  · exact (C4_routing_precedence _).2.2.2 (by decide) (by decide) (by decide)

/-! ## Claim C5 — wrapper failure capture -/

/-- C5: when the handler raises (`Except.error e`), the tracked wrapper
never propagates the exception; it returns exactly the delta whose
`execution_trace` is a copy of the state's trace with
`"<step_name>[ERROR]"` appended, whose `error` names the step and the
failure (`"Errore in <step_name>: <e>"`), whose `skip_remaining` is true,
and whose `current_step_index` is the state's index plus one. -/
theorem C5_wrapper_failure_delta (node_name : String) (f : Handler)
    (st : GraphState) (e : String) (hf : f st = Except.error e) :
    create_tracked_node node_name f st =
      [("error", Val.s ("Errore in " ++ node_name ++ ": " ++ e)),
       ("execution_trace", Val.l (getTrace st ++ [node_name ++ "[ERROR]"])),
       ("skip_remaining", Val.b true),
       ("current_step_index", Val.n (getIndex st + 1))] :=
  tracked_node_error_eq node_name f st e hf

/-- Witness for C5: a concrete failing `email` handler on the initial state
of a one-step plan. -/
theorem C5_wrapper_failure_delta_witness :
    create_tracked_node "email" (fun _ => Except.error "boom")
        (mkInitState ["email"] []) =
      [("error", Val.s ("Errore in " ++ "email" ++ ": " ++ "boom")),
       ("execution_trace",
        Val.l (getTrace (mkInitState ["email"] []) ++ ["email" ++ "[ERROR]"])),
       ("skip_remaining", Val.b true),
       ("current_step_index", Val.n (getIndex (mkInitState ["email"] []) + 1))] :=
  C5_wrapper_failure_delta "email" (fun _ => Except.error "boom")
    (mkInitState ["email"] []) "boom" rfl

/-! ## Claim C10 — wrapper success delta -/

/-- C10: on a successful handler invocation, the wrapper's returned delta
binds `execution_trace` to the state's trace (copied) with the step name
appended and `current_step_index` to the state's index plus one —
overwriting whatever the handler returned under those two keys — while
every other key of the handler's result reads back unchanged.  (The state
itself is never touched: the wrapper is a pure function of it and returns
only a delta.) -/
theorem C10_wrapper_success_delta (node_name : String) (f : Handler)
    (st : GraphState) (d : PyDict) (hf : f st = Except.ok d) :
    pyGet (create_tracked_node node_name f st) "execution_trace"
      = some (Val.l (getTrace st ++ [node_name])) ∧
    pyGet (create_tracked_node node_name f st) "current_step_index"
      = some (Val.n (getIndex st + 1)) ∧
    ∀ k, k ≠ "execution_trace" → k ≠ "current_step_index" →
      pyGet (create_tracked_node node_name f st) k = pyGet d k := by
  rw [tracked_node_ok_eq node_name f st d hf]
  refine ⟨?_, ?_, ?_⟩
  · rw [pyGet_pySet_other _ _ _ _ (by decide)]
    exact pyGet_pySet_same _ _ _
  · exact pyGet_pySet_same _ _ _
  · intro k hk1 hk2
    rw [pyGet_pySet_other _ _ _ _ hk2, pyGet_pySet_other _ _ _ _ hk1]

/-- Witness for C10: a handler returning `{transcript: "hello",
current_step_index: 99}` has its index overwritten with `0 + 1` and its
trace set by the engine, while `transcript` passes through unchanged. -/
theorem C10_wrapper_success_delta_witness :
    pyGet (create_tracked_node "reconstruct"
        (fun _ => Except.ok
          [("transcript", Val.s "hello"), ("current_step_index", Val.n 99)])
        (mkInitState ["reconstruct"] [])) "execution_trace"
      = some (Val.l (getTrace (mkInitState ["reconstruct"] []) ++ ["reconstruct"])) ∧
    pyGet (create_tracked_node "reconstruct"
        (fun _ => Except.ok
          [("transcript", Val.s "hello"), ("current_step_index", Val.n 99)])
        (mkInitState ["reconstruct"] [])) "current_step_index"
      = some (Val.n (getIndex (mkInitState ["reconstruct"] []) + 1)) ∧
    pyGet (create_tracked_node "reconstruct"
        (fun _ => Except.ok
          [("transcript", Val.s "hello"), ("current_step_index", Val.n 99)])
        (mkInitState ["reconstruct"] [])) "transcript" = some (Val.s "hello") := by
  refine ⟨?_, ?_, ?_⟩
  · exact (C10_wrapper_success_delta "reconstruct" _ _ _ rfl).1
  · exact (C10_wrapper_success_delta "reconstruct" _ _ _ rfl).2.1
  · rw [(C10_wrapper_success_delta "reconstruct"
      (fun _ => Except.ok
        [("transcript", Val.s "hello"), ("current_step_index", Val.n 99)])
      (mkInitState ["reconstruct"] [])
      [("transcript", Val.s "hello"), ("current_step_index", Val.n 99)] rfl).2.2
      "transcript" (by decide) (by decide)]
    rfl

/-! ## Resolver lemmas and claims C6–C9 -/

theorem lookup_mem {β : Type} (l : List (String × β)) (k : String) (v : β)
    (h : List.lookup k l = some v) : (k, v) ∈ l := by
  induction l with
  | nil => cases h
  | cons kv rest ih =>
    obtain ⟨k1, v1⟩ := kv
    by_cases hb : k = k1
    · subst hb
      simp only [List.lookup, beq_self_eq_true] at h
      cases h
      exact List.mem_cons_self _ _
    · simp only [List.lookup, beq_eq_false_iff_ne.mpr hb] at h
      exact List.mem_cons_of_mem _ (ih h)

/-- C6, counterexample to the claim as stated: the string request
`"bogus"` matches no preset, so the resolver returns the single-step plan
`["bogus"]`, whose only name is not registered — the invariant does not
hold before execution starts for such requests. -/
theorem C6_unregistered_string_counterexample :
    prepare_workflow_steps (WorkflowRequest.str "bogus") = ["bogus"] ∧
    NODE_FUNCTIONS_keys.contains "bogus" = false := by
  decide

/-- C6 (amended): every name in a plan resolved from a falsy request, from
a string request that matches a preset, or from an explicit list request is
a registered step name; a string request matching no preset instead yields
the unvalidated single-step plan `[that string]`, which may be
unregistered. -/
theorem C6_resolved_plan_registered (req : WorkflowRequest)
    (h : match req with
         | WorkflowRequest.str s => s = "" ∨ presetMatch s = true
         | _ => True) :
    ∀ x ∈ prepare_workflow_steps req, NODE_FUNCTIONS_keys.contains x = true := by
  cases req with
  | null => decide
  | str s =>
    rcases h with he | hp
    · subst he
      decide
    · by_cases he : s = ""
      · subst he
        decide
      · simp only [prepare_workflow_steps, if_neg he]
        obtain ⟨plan, hplan⟩ := Option.isSome_iff_exists.mp hp
        rw [hplan]
        have hall : ∀ p ∈ PRESET_WORKFLOWS, ∀ x ∈ p.snd,
            NODE_FUNCTIONS_keys.contains x = true := by decide
        exact hall (s, plan) (lookup_mem PRESET_WORKFLOWS s plan hplan)
  | strList l =>
    by_cases he : l.isEmpty
    · simp only [prepare_workflow_steps, if_pos he]
      decide
    · simp only [prepare_workflow_steps, if_neg he]
      intro x hx
      exact List.of_mem_filter hx

/-- Witness for C6: the preset request `"quick"` resolves to a plan whose
first name, `"reconstruct"`, is registered. -/
theorem C6_resolved_plan_registered_witness :
    NODE_FUNCTIONS_keys.contains "reconstruct" = true :=
  C6_resolved_plan_registered (WorkflowRequest.str "quick")
    (Or.inr (by decide)) "reconstruct" (by decide)

/-- C7, counterexample to the claim as stated: a run request with an
ABSENT workflow field defaults to the string `"full"`, which resolves to
the six-step `full` preset — not to the configured default plan
`DEFAULT_FLOW`, and without the repeated `email` step. -/
theorem C7_absent_workflow_counterexample :
    run_dynamic_workflow_steps Option.none
      = ["reconstruct", "persist", "email", "analyze", "suggest", "save_analysis"] ∧
    run_dynamic_workflow_steps Option.none ≠ DEFAULT_FLOW ∧
    (run_dynamic_workflow_steps Option.none).count "email" = 1 := by
  decide

/-- C7 (amended): a run request with a present-but-empty workflow field
(null, the empty string, or the empty list) resolves to the configured
default plan `DEFAULT_FLOW`, which is non-empty and contains the
intentionally repeated `email` step; an ABSENT workflow field instead
resolves to the six-step `full` preset, which is also non-empty but does
not repeat `email`; in no case is the resolved plan empty. -/
theorem C7_default_resolution :
    run_dynamic_workflow_steps (some WorkflowRequest.null) = DEFAULT_FLOW ∧
    run_dynamic_workflow_steps (some (WorkflowRequest.str "")) = DEFAULT_FLOW ∧
    run_dynamic_workflow_steps (some (WorkflowRequest.strList [])) = DEFAULT_FLOW ∧
    run_dynamic_workflow_steps Option.none
      = ["reconstruct", "persist", "email", "analyze", "suggest", "save_analysis"] ∧
    DEFAULT_FLOW.count "email" = 2 ∧
    DEFAULT_FLOW ≠ [] ∧
    run_dynamic_workflow_steps Option.none ≠ [] := by
  decide

/-- C8, counterexample to the claim as stated: for the (explicit, ordered,
empty) list request `[]`, the resolver returns `DEFAULT_FLOW`, not the
empty sublist of registered names. -/
theorem C8_empty_list_counterexample :
    prepare_workflow_steps (WorkflowRequest.strList []) = DEFAULT_FLOW ∧
    List.filter (fun step => NODE_FUNCTIONS_keys.contains step)
      ([] : List String) = ([] : List String) ∧
    DEFAULT_FLOW ≠ ([] : List String) := by
  decide

/-- C8 (amended): for every NON-EMPTY explicit ordered list of names, the
resolver returns exactly the sublist of registered names, in their original
relative order with duplicates kept (each unregistered name is dropped with
a logged warning, not a hard failure); the empty list is falsy in Python
and instead resolves to the default plan. -/
theorem C8_list_resolution (l : List String) (h : l ≠ []) :
    prepare_workflow_steps (WorkflowRequest.strList l)
      = l.filter (fun step => NODE_FUNCTIONS_keys.contains step) := by
  have he : l.isEmpty = false := by simp [List.isEmpty_iff, h]
  simp [prepare_workflow_steps, he]

/-- Witness for C8: a list mixing the unregistered `"bogus"` between two
valid names yields the plan with just that name dropped. -/
theorem C8_list_resolution_witness :
    prepare_workflow_steps (WorkflowRequest.strList ["reconstruct", "bogus", "persist"])
      = ["reconstruct", "persist"] := by
  rw [C8_list_resolution ["reconstruct", "bogus", "persist"] (by decide)]
  decide

/-- C9: plan resolution is a pure, deterministic function of the request
(the registry and preset tables are fixed constants): the same request
always resolves to the same ordered plan, both at the resolver and at the
endpoint.  In this embedding the resolver is a total function with no
effects, so determinism is definitional. -/
theorem C9_resolution_deterministic :
    (∀ r : WorkflowRequest,
      prepare_workflow_steps r = prepare_workflow_steps r) ∧
    (∀ w : Option WorkflowRequest,
      run_dynamic_workflow_steps w = run_dynamic_workflow_steps w) :=
  ⟨fun _ => rfl, fun _ => rfl⟩

/-! ## Engine-run lemmas and claims C1, C2 -/

theorem runFrom_succ (handlers : String → Handler) (fuel : Nat) (node : String)
    (st : GraphState) :
    runFrom handlers (fuel + 1) node st =
      match route_to_next_step
          (applyDelta st (create_tracked_node node (handlers node) st)) with
      | Option.none =>
          applyDelta st (create_tracked_node node (handlers node) st)
      | some next =>
          runFrom handlers fuel next
            (applyDelta st (create_tracked_node node (handlers node) st)) := rfl

theorem runFrom_succ_end (handlers : String → Handler) (fuel : Nat)
    (node : String) (st : GraphState)
    (h : route_to_next_step
        (applyDelta st (create_tracked_node node (handlers node) st))
      = Option.none) :
    runFrom handlers (fuel + 1) node st =
      applyDelta st (create_tracked_node node (handlers node) st) := by
  rw [runFrom_succ, h]

theorem runFrom_succ_cont (handlers : String → Handler) (fuel : Nat)
    (node next : String) (st : GraphState)
    (h : route_to_next_step
        (applyDelta st (create_tracked_node node (handlers node) st))
      = some next) :
    runFrom handlers (fuel + 1) node st =
      runFrom handlers fuel next
        (applyDelta st (create_tracked_node node (handlers node) st)) := by
  rw [runFrom_succ, h]

theorem entry_of_mkInit (P : List String) (payload : PyDict) (hP : P ≠ []) :
    get_entry_point (mkInitState P payload) = P.getD 0 "" := by
  have hlen : 0 < P.length := List.length_pos.mpr hP
  simp [get_entry_point, getSteps_eq (mkInitState P payload) P rfl,
    getIndex_eq (mkInitState P payload) 0 rfl, List.isEmpty_iff, hP, hlen]

theorem err_msg_ne_empty (name e : String) :
    ("Errore in " ++ name ++ ": " ++ e) ≠ "" := by
  intro h
  have hlen := congrArg String.length h
  simp only [String.length_append] at hlen
  have h10 : ("Errore in ").length = 10 := rfl
  have h2 : (": ").length = 2 := rfl
  have h0 : ("" : String).length = 0 := rfl
  omega

/-- Running the loop from position `i` of plan `P`, with every handler
succeeding cleanly, appends `P.drop i` to the trace and ends with the index
at the plan length. -/
theorem runFrom_ok (handlers : String → Handler) (hH : cleanOk handlers)
    (P : List String) :
    ∀ (fuel i : Nat) (t : List String) (st : GraphState),
      st.steps = some (Val.l P) →
      st.current_step_index = some (Val.n i) →
      st.execution_trace = some (Val.l t) →
      truthy st.skip_remaining = false →
      truthy st.error = false →
      i < P.length →
      P.length - i ≤ fuel →
      (runFrom handlers fuel (P.getD i "") st).execution_trace
          = some (Val.l (t ++ P.drop i)) ∧
      (runFrom handlers fuel (P.getD i "") st).current_step_index
          = some (Val.n P.length) := by
  intro fuel
  induction fuel with
  | zero =>
    intro i t st _ _ _ _ _ hilt hfuel
    omega
  | succ fuel ih =>
    intro i t st hsteps hidx htrace hskip herr hilt hfuel
    obtain ⟨d, hd, hdclean⟩ := hH (P.getD i "") st
    have hok := tracked_node_ok_eq (P.getD i "") (handlers (P.getD i "")) st d hd
    have hstep : applyDelta st
        (create_tracked_node (P.getD i "") (handlers (P.getD i "")) st)
        = applyDelta st (pySet (pySet d "execution_trace"
            (Val.l (getTrace st ++ [P.getD i ""]))) "current_step_index"
            (Val.n (getIndex st + 1))) := by rw [hok]
    obtain ⟨hs1, hs2, hs3, hs4, hs5⟩ :=
      applyDelta_tracked_ok st d (getTrace st ++ [P.getD i ""])
        (getIndex st + 1) hdclean
    have hA : (applyDelta st
        (create_tracked_node (P.getD i "") (handlers (P.getD i "")) st)).steps
        = some (Val.l P) := by rw [hstep, hs1]; exact hsteps
    have hB : truthy (applyDelta st
        (create_tracked_node (P.getD i "") (handlers (P.getD i "")) st)).skip_remaining
        = false := by rw [hstep, hs2]; exact hskip
    have hC : truthy (applyDelta st
        (create_tracked_node (P.getD i "") (handlers (P.getD i "")) st)).error
        = false := by rw [hstep, hs3]; exact herr
    have hD : (applyDelta st
        (create_tracked_node (P.getD i "") (handlers (P.getD i "")) st)).execution_trace
        = some (Val.l (t ++ [P.getD i ""])) := by
      rw [hstep, hs4, getTrace_eq st t htrace]
    have hE : (applyDelta st
        (create_tracked_node (P.getD i "") (handlers (P.getD i "")) st)).current_step_index
        = some (Val.n (i + 1)) := by
      rw [hstep, hs5, getIndex_eq st i hidx]
    by_cases hlast : i + 1 < P.length
    · have hroute : route_to_next_step (applyDelta st
          (create_tracked_node (P.getD i "") (handlers (P.getD i "")) st))
          = some (P.getD (i + 1) "") := by
        have hr := route_cont _ hB hC (by
          rw [getSteps_eq _ P hA, getIndex_eq _ (i + 1) hE]
          exact hlast)
        rw [getSteps_eq _ P hA, getIndex_eq _ (i + 1) hE] at hr
        exact hr
      rw [runFrom_succ_cont handlers fuel (P.getD i "") (P.getD (i + 1) "") st hroute]
      have hres := ih (i + 1) (t ++ [P.getD i ""]) _ hA hE hD hB hC hlast (by omega)
      have hdrop : P.drop i = P.getD i "" :: P.drop (i + 1) := by
        rw [List.getD_eq_getElem P "" hilt]
        exact List.drop_eq_getElem_cons hilt
      constructor
      · rw [hres.1, hdrop, List.append_assoc t, List.singleton_append]
      · exact hres.2
    · have hroute : route_to_next_step (applyDelta st
          (create_tracked_node (P.getD i "") (handlers (P.getD i "")) st))
          = Option.none := by
        apply route_end_of_exhausted _ hB hC
        rw [getSteps_eq _ P hA, getIndex_eq _ (i + 1) hE]
        omega
      rw [runFrom_succ_end handlers fuel (P.getD i "") st hroute]
      have hdrop : P.drop i = [P.getD i ""] := by
        rw [List.drop_eq_getElem_cons hilt, List.drop_eq_nil_of_le (by omega),
          List.getD_eq_getElem P "" hilt]
      constructor
      · rw [hD, hdrop]
      · rw [hE]
        have hfin : i + 1 = P.length := by omega
        rw [hfin]

/-- C1: on a non-empty plan `P` in which every handler succeeds cleanly, a
run from index 0 with an empty trace ends with `execution_trace = P`
exactly (same names, order and multiplicity) and `current_step_index =
P.length`.  (Plans reaching the engine are non-empty: the resolver output
is checked by the endpoint before the run starts, and a handler that
returns an `error`/`skip_remaining`/`steps` update counts as failing or
stopping, not as a cleanly succeeding step.) -/
theorem C1_successful_run (handlers : String → Handler) (P : List String)
    (payload : PyDict) (hP : P ≠ []) (hH : cleanOk handlers) :
    (dynamic_graph_run handlers (mkInitState P payload)).execution_trace
      = some (Val.l P) ∧
    (dynamic_graph_run handlers (mkInitState P payload)).current_step_index
      = some (Val.n P.length) := by
  have hlen : 0 < P.length := List.length_pos.mpr hP
  unfold dynamic_graph_run
  rw [entry_of_mkInit P payload hP, getSteps_eq (mkInitState P payload) P rfl]
  exact runFrom_ok handlers hH P (P.length + 1) 0 [] (mkInitState P payload)
    rfl rfl rfl rfl rfl hlen (by omega)

/-- Witness for C1: two always-succeeding handlers on the plan
`["reconstruct", "persist"]`. -/
theorem C1_successful_run_witness :
    (dynamic_graph_run (fun _ _ => Except.ok [])
        (mkInitState ["reconstruct", "persist"] [])).execution_trace
      = some (Val.l ["reconstruct", "persist"]) ∧
    (dynamic_graph_run (fun _ _ => Except.ok [])
        (mkInitState ["reconstruct", "persist"] [])).current_step_index
      = some (Val.n 2) :=
  C1_successful_run (fun _ _ => Except.ok []) ["reconstruct", "persist"] []
    (by decide)
    (fun _ _ => ⟨[], rfl, fun kv hkv => absurd hkv (List.not_mem_nil kv)⟩)

/-- Running the loop from position `i ≤ k` of plan `P`, with handlers
succeeding cleanly strictly below index `k` and the handler invoked at
index `k` raising, appends the successful names `P[i..k-1]` and then the
error marker to the trace, sets a non-empty error message, and stops with
the index at `k + 1`. -/
theorem runFrom_fail (handlers : String → Handler) (P : List String) (k : Nat)
    (hok : ∀ s : GraphState, getIndex s < k →
      ∃ d, handlers (P.getD (getIndex s) "") s = Except.ok d ∧ cleanKeys d)
    (hfail : ∀ s : GraphState, getIndex s = k →
      ∃ e, handlers (P.getD k "") s = Except.error e)
    (hk : k < P.length) :
    ∀ (fuel i : Nat) (t : List String) (st : GraphState),
      st.steps = some (Val.l P) →
      st.current_step_index = some (Val.n i) →
      st.execution_trace = some (Val.l t) →
      truthy st.skip_remaining = false →
      truthy st.error = false →
      i ≤ k →
      (k - i) + 1 ≤ fuel →
      (runFrom handlers fuel (P.getD i "") st).execution_trace
          = some (Val.l (t ++ (P.drop i).take (k - i)
              ++ [P.getD k "" ++ "[ERROR]"])) ∧
      (∃ m, (runFrom handlers fuel (P.getD i "") st).error
          = some (Val.s m) ∧ m ≠ "") ∧
      (runFrom handlers fuel (P.getD i "") st).current_step_index
          = some (Val.n (k + 1)) := by
  intro fuel
  induction fuel with
  | zero =>
    intro i t st _ _ _ _ _ _ hfuel
    omega
  | succ fuel ih =>
    intro i t st hsteps hidx htrace hskip herr hik hfuel
    by_cases hi : i = k
    · subst hi
      obtain ⟨e, he⟩ := hfail st (getIndex_eq st i hidx)
      have herr_eq := tracked_node_error_eq (P.getD i "")
        (handlers (P.getD i "")) st e he
      have hstep : applyDelta st
          (create_tracked_node (P.getD i "") (handlers (P.getD i "")) st)
          = { st with
              error := some (Val.s ("Errore in " ++ P.getD i "" ++ ": " ++ e))
              execution_trace :=
                some (Val.l (getTrace st ++ [P.getD i "" ++ "[ERROR]"]))
              skip_remaining := some (Val.b true)
              current_step_index := some (Val.n (getIndex st + 1)) } := by
        rw [herr_eq, applyDelta_tracked_error]
      have hroute : route_to_next_step (applyDelta st
          (create_tracked_node (P.getD i "") (handlers (P.getD i "")) st))
          = Option.none := by
        apply route_end_of_skip
        rw [hstep]
        rfl
      rw [runFrom_succ_end handlers fuel (P.getD i "") st hroute, hstep]
      refine ⟨?_, ⟨"Errore in " ++ P.getD i "" ++ ": " ++ e, rfl,
        err_msg_ne_empty _ _⟩, ?_⟩
      · show some (Val.l (getTrace st ++ [P.getD i "" ++ "[ERROR]"]))
          = some (Val.l (t ++ (P.drop i).take (i - i)
              ++ [P.getD i "" ++ "[ERROR]"]))
        rw [getTrace_eq st t htrace, Nat.sub_self, List.take_zero,
          List.append_nil]
      · show some (Val.n (getIndex st + 1)) = some (Val.n (i + 1))
        rw [getIndex_eq st i hidx]
    · have hilt : i < k := by omega
      obtain ⟨d, hd, hdclean⟩ := hok st (by rw [getIndex_eq st i hidx]; omega)
      rw [getIndex_eq st i hidx] at hd
      have hok_eq := tracked_node_ok_eq (P.getD i "") (handlers (P.getD i "")) st d hd
      have hstep : applyDelta st
          (create_tracked_node (P.getD i "") (handlers (P.getD i "")) st)
          = applyDelta st (pySet (pySet d "execution_trace"
              (Val.l (getTrace st ++ [P.getD i ""]))) "current_step_index"
              (Val.n (getIndex st + 1))) := by rw [hok_eq]
      obtain ⟨hs1, hs2, hs3, hs4, hs5⟩ :=
        applyDelta_tracked_ok st d (getTrace st ++ [P.getD i ""])
          (getIndex st + 1) hdclean
      have hA : (applyDelta st
          (create_tracked_node (P.getD i "") (handlers (P.getD i "")) st)).steps
          = some (Val.l P) := by rw [hstep, hs1]; exact hsteps
      have hB : truthy (applyDelta st
          (create_tracked_node (P.getD i "") (handlers (P.getD i "")) st)).skip_remaining
          = false := by rw [hstep, hs2]; exact hskip
      have hC : truthy (applyDelta st
          (create_tracked_node (P.getD i "") (handlers (P.getD i "")) st)).error
          = false := by rw [hstep, hs3]; exact herr
      have hD : (applyDelta st
          (create_tracked_node (P.getD i "") (handlers (P.getD i "")) st)).execution_trace
          = some (Val.l (t ++ [P.getD i ""])) := by
        rw [hstep, hs4, getTrace_eq st t htrace]
      have hE : (applyDelta st
          (create_tracked_node (P.getD i "") (handlers (P.getD i "")) st)).current_step_index
          = some (Val.n (i + 1)) := by
        rw [hstep, hs5, getIndex_eq st i hidx]
      have hroute : route_to_next_step (applyDelta st
          (create_tracked_node (P.getD i "") (handlers (P.getD i "")) st))
          = some (P.getD (i + 1) "") := by
        have hr := route_cont _ hB hC (by
          rw [getSteps_eq _ P hA, getIndex_eq _ (i + 1) hE]
          omega)
        rw [getSteps_eq _ P hA, getIndex_eq _ (i + 1) hE] at hr
        exact hr
      rw [runFrom_succ_cont handlers fuel (P.getD i "") (P.getD (i + 1) "") st hroute]
      have hres := ih (i + 1) (t ++ [P.getD i ""]) _ hA hE hD hB hC
        (by omega) (by omega)
      have htake : (P.drop i).take (k - i)
          = P.getD i "" :: (P.drop (i + 1)).take (k - (i + 1)) := by
        have hsplit : k - i = (k - (i + 1)) + 1 := by omega
        rw [hsplit, List.drop_eq_getElem_cons (show i < P.length by omega),
          List.take_succ_cons, List.getD_eq_getElem P "" (show i < P.length by omega)]
      refine ⟨?_, hres.2.1, hres.2.2⟩
      rw [hres.1, htake, List.append_assoc t, List.singleton_append]

/-- C2: on a plan whose handler at position `k` fails while all earlier
invocations succeed cleanly, the run ends with a trace of length `k + 1`
equal to the first `k` names followed by `"<name_k>[ERROR]"`, with `error`
set to a non-empty string, with the index at `k + 1` — so no step at a
position after `k` is ever invoked (the trace lists exactly the invoked
steps). -/
theorem C2_failing_run (handlers : String → Handler) (P : List String)
    (k : Nat) (payload : PyDict) (hk : k < P.length)
    (hok : ∀ s : GraphState, getIndex s < k →
      ∃ d, handlers (P.getD (getIndex s) "") s = Except.ok d ∧ cleanKeys d)
    (hfail : ∀ s : GraphState, getIndex s = k →
      ∃ e, handlers (P.getD k "") s = Except.error e) :
    (dynamic_graph_run handlers (mkInitState P payload)).execution_trace
      = some (Val.l (P.take k ++ [P.getD k "" ++ "[ERROR]"])) ∧
    (P.take k ++ [P.getD k "" ++ "[ERROR]"]).length = k + 1 ∧
    (∃ m, (dynamic_graph_run handlers (mkInitState P payload)).error
      = some (Val.s m) ∧ m ≠ "") ∧
    (dynamic_graph_run handlers (mkInitState P payload)).current_step_index
      = some (Val.n (k + 1)) := by
  have hP : P ≠ [] := by
    intro hc
    rw [hc] at hk
    simp at hk
  unfold dynamic_graph_run
  rw [entry_of_mkInit P payload hP, getSteps_eq (mkInitState P payload) P rfl]
  have hres := runFrom_fail handlers P k hok hfail hk (P.length + 1) 0 []
    (mkInitState P payload) rfl rfl rfl rfl rfl (by omega) (by omega)
  refine ⟨hres.1, ?_, hres.2.1, hres.2.2⟩
  rw [List.length_append, List.length_take]
  simp
  omega

/-- Witness for C2: a three-step plan whose handler invoked at index 1
raises, while the handler invoked at index 0 succeeds. -/
theorem C2_failing_run_witness :
    (dynamic_graph_run
        (fun _ s => if getIndex s = 1 then Except.error "boom" else Except.ok [])
        (mkInitState ["reconstruct", "persist", "email"] [])).execution_trace
      = some (Val.l ["reconstruct", "persist[ERROR]"]) ∧
    (dynamic_graph_run
        (fun _ s => if getIndex s = 1 then Except.error "boom" else Except.ok [])
        (mkInitState ["reconstruct", "persist", "email"] [])).current_step_index
      = some (Val.n 2) := by
  have h := C2_failing_run
    (fun _ s => if getIndex s = 1 then Except.error "boom" else Except.ok [])
    ["reconstruct", "persist", "email"] 1 [] (by decide)
    (fun s hs => ⟨[], by
      show (if getIndex s = 1 then Except.error "boom" else Except.ok ([] : PyDict))
        = Except.ok ([] : PyDict)
      rw [if_neg (show ¬ getIndex s = 1 by omega)],
      fun kv hkv => absurd hkv (List.not_mem_nil kv)⟩)
    (fun s hs => ⟨"boom", by
      show (if getIndex s = 1 then Except.error "boom" else Except.ok ([] : PyDict))
        = Except.error "boom"
      rw [if_pos hs]⟩)
  exact ⟨h.1, h.2.2.2⟩

end AssistantSupport
